import Mathlib

/-!
Verification of the ADGM document-review pipeline (`app.py`, `checker.py`,
`docx_utils.py`, `rag.py`) against its specification.

The source is shallowly embedded: a parsed document is the ordered list of
its paragraphs' visible texts (the external document library's `parse`
capability), the reasoning capability is a function from prompt text to
either an exception message (`Except.error`, a raised exception) or a reply
string, and the external JSON parser is a function from the reply to an
optional list of structured objects.  Regular-expression searching
(`re.search` with `re.IGNORECASE` over the alternation of the pattern
lists) is embedded by a small matcher over the exact token sequences the
source's pattern strings denote: literal characters, the word boundary
`\b`, and `\s+`.
-/

/-- Tokens of the regular expressions used in `checker.py`: a literal
character, a word boundary (`\b`), and one-or-more whitespace (`\s+`). -/
inductive RTok where
  | lit : Char → RTok
  | wb : RTok
  | ws1 : RTok
deriving DecidableEq

/-- Python's `\w` class over the ASCII texts involved: letters, digits, underscore. -/
def isWordChar (c : Char) : Bool := c.isAlphanum || c == '_'

def isWordOpt : Option Char → Bool
  | none => false
  | some c => isWordChar c

/-- A word boundary stands between two positions exactly when one side is a
word character and the other is not (an absent side counts as non-word). -/
def boundary (p n : Option Char) : Bool := isWordOpt p != isWordOpt n

/-- Case-insensitive character comparison, modelling `re.IGNORECASE`. -/
def eqCI (a c : Char) : Bool := a.toLower == c.toLower

/-- All ways for `\s+` to consume a non-empty prefix of whitespace: each
entry is (last consumed character, remaining suffix). -/
def wsTails : List Char → List (Char × List Char)
  | [] => []
  | a :: s => if a.isWhitespace then (a, s) :: wsTails s else []

/-- Match a pattern against a prefix of `s`; `prev` is the character just
before the current position (for word boundaries). -/
def matchTok : List RTok → Option Char → List Char → Bool
  | [], _, _ => true
  | RTok.wb :: ps, prev, s => boundary prev s.head? && matchTok ps prev s
  | RTok.lit _ :: _, _, [] => false
  | RTok.lit c :: ps, _, a :: s => eqCI a c && matchTok ps (some a) s
  | RTok.ws1 :: ps, _, s => (wsTails s).any (fun q => matchTok ps (some q.1) q.2)

/-- Try `matchTok` at every position of the text, as `re.search` does. -/
def searchFrom (pat : List RTok) : Option Char → List Char → Bool
  | prev, [] => matchTok pat prev []
  | prev, a :: s => matchTok pat prev (a :: s) || searchFrom pat (some a) s

/-- `re.search(pat, text, re.IGNORECASE)` as a Boolean. -/
def re_search (pat : List RTok) (text : String) : Bool :=
  searchFrom pat none text.data

/-- `re.search("|".join(pats), text, re.IGNORECASE)`: the alternation
matches somewhere iff some alternative matches somewhere. -/
def searchAny (pats : List (List RTok)) (text : String) : Bool :=
  pats.any (fun p => re_search p text)

/-- A string of plain characters as a literal pattern. -/
def strLits (s : String) : List RTok := s.data.map RTok.lit

/-- A whole-word pattern `\b...\b`. -/
def wordPat (core : String) : List RTok :=
  RTok.wb :: (strLits core ++ [RTok.wb])

/-- The cores of `AMBIGUOUS_TERMS` in `checker.py`; each source pattern is
the core wrapped in word boundaries, and the Finding text uses the core
(the source's `pattern.strip('\\b')`). -/
def AMBIGUOUS_CORES : List String :=
  ["may", "possible", "subject to", "as appropriate", "where practicable"]

def AMBIGUOUS_TERMS : List (List RTok) := AMBIGUOUS_CORES.map wordPat

def JURISDICTION_PATTERNS : List (List RTok) :=
  [strLits "ADGM", strLits "Abu Dhabi Global Market", strLits "ADGM Courts",
   wordPat "Abu Dhabi"]

def FEDERAL_COURTS_PATTERNS : List (List RTok) :=
  [strLits "UAE Federal Courts", strLits "Federal Courts of the UAE",
   wordPat "UAE Courts"]

def SIGNATURE_PATTERNS : List (List RTok) :=
  [strLits "Signature:", strLits "Signed by", strLits "Signatory",
   strLits "Signature" ++ [RTok.ws1] ++ strLits "of"]

/-- Drop leading whitespace characters. -/
def dropLeadWS : List Char → List Char
  | [] => []
  | a :: s => if a.isWhitespace then dropLeadWS s else a :: s

/-- Python `str.strip()`: drop leading and trailing whitespace.  (Defined on
character lists so that it evaluates inside the kernel.) -/
def pyStrip (s : String) : String :=
  String.mk ((dropLeadWS ((dropLeadWS s.data).reverse)).reverse)

/-- Python `str.lower()` over the ASCII texts involved. -/
def pyLower (s : String) : String := String.mk (s.data.map Char.toLower)

/-- Python `sep.join(items)`. -/
def pyJoin (sep : String) : List String → String
  | [] => ""
  | [a] => a
  | a :: rest => a ++ sep ++ pyJoin sep rest

/-- Python `s[:n]` (by code point). -/
def pyTake (s : String) (n : Nat) : String := String.mk (s.data.take n)

/-- A Finding dictionary as the source builds them.  The source uses plain
Python dicts whose key sets differ by producer; each key the pipeline ever
reads is a field here, absent keys are `none`.  `sect` embeds the source
key `section` (a Lean keyword). -/
structure Finding where
  document_index_paragraph : Option Int
  document_paragraph_idx : Option Int
  paragraph_index : Option Int
  document : Option String
  issue : Option String
  sect : Option String
  severity : Option String
  suggestion : Option String
deriving DecidableEq

/-- The wrong-jurisdiction Finding of `heuristic_checks`. -/
def fedFinding (idx : Nat) : Finding :=
  ⟨some (idx : Int), none, none, none,
   some "References UAE Federal Courts instead of ADGM",
   some ("Paragraph " ++ toString idx),
   some "High",
   some "Replace references to UAE Federal Courts with ADGM Courts (per ADGM Companies Regulations)."⟩

/-- The ambiguous-language Finding of `heuristic_checks` for one trigger core. -/
def ambFinding (idx : Nat) (core : String) : Finding :=
  ⟨some (idx : Int), none, none, none,
   some ("Ambiguous language: contains '" ++ core ++ "'"),
   some ("Paragraph " ++ toString idx),
   some "Medium",
   some "Consider clarifying to explicit obligation or remove discretionary terms."⟩

/-- `checker.heuristic_checks`: per paragraph, a wrong-jurisdiction Finding
when any federal-courts pattern matches, then one Finding per matching
ambiguous term, accumulated in paragraph order. -/
def heuristic_checks : List (Nat × String) → List Finding
  | [] => []
  | p :: rest =>
      ((if searchAny FEDERAL_COURTS_PATTERNS p.2 then [fedFinding p.1] else []) ++
        AMBIGUOUS_CORES.filterMap (fun core =>
          if re_search (wordPat core) p.2 then some (ambFinding p.1 core) else none)) ++
      heuristic_checks rest

/-- The document-level missing-signature Finding of `document_level_checks`. -/
def sigMissing : Finding :=
  ⟨none, none, none, none,
   some "No signatory or signature block detected",
   some "End of document",
   some "High",
   some "Add a clearly labelled signature block for authorized signatories with name, title and date."⟩

/-- The document-level missing-jurisdiction Finding of `document_level_checks`. -/
def jurMissing : Finding :=
  ⟨none, none, none, none,
   some "Jurisdiction not specified as ADGM",
   some "Governing Law / Jurisdiction clause",
   some "High",
   some "Set governing law and jurisdiction to ADGM and ADGM Courts."⟩

/-- `checker.document_level_checks`: scan the newline-joined paragraph texts
once for signature indicators and for domain-jurisdiction indicators. -/
def document_level_checks (paragraphs : List (Nat × String)) : List Finding :=
  let combined_text := pyJoin "\n" (paragraphs.map Prod.snd)
  (if searchAny SIGNATURE_PATTERNS combined_text then [] else [sigMissing]) ++
  (if searchAny JURISDICTION_PATTERNS combined_text then [] else [jurMissing])

/-- `docx_utils.extract_structured_text`, unrolled: `enumerate` the parsed
document's paragraph texts from position `i`, strip each, keep the non-empty
ones with their native position. -/
def extractFrom (i : Nat) : List String → List (Nat × String)
  | [] => []
  | p :: rest =>
      let text := pyStrip p
      if text = "" then extractFrom (i + 1) rest
      else (i, text) :: extractFrom (i + 1) rest

/-- `docx_utils.extract_structured_text`: the (native index, stripped text)
pairs of the non-empty paragraphs, in source order. -/
def extract_structured_text (doc : List String) : List (Nat × String) :=
  extractFrom 0 doc

/-- An annotation dict as `app.analyze_documents` builds them and
`docx_utils.insert_comment_simulation` consumes them. -/
structure Annot where
  paragraph_index : Int
  match_text : Option String
  comment : String
deriving DecidableEq

/-- Insert one `x` before position `i` (python-docx `insert_paragraph_before`
on the paragraph at `i`). -/
def insertAt (x : String) : Nat → List String → List String
  | _, [] => [x]
  | 0, l => x :: l
  | n + 1, a :: l => a :: insertAt x n l

/-- One iteration of the loop of `docx_utils.insert_comment_simulation`: skip
the annotation when its index is out of range of the current paragraph list;
otherwise append the bracketed comment run to that paragraph's text, and —
when no `match_text` is given — additionally insert an empty paragraph
before it (the source's `para.insert_paragraph_before("")`). -/
def insertCommentStep (d : List String) (ann : Annot) : List String :=
  if ann.paragraph_index < 0 ∨ (d.length : Int) ≤ ann.paragraph_index then d
  else
    let i := ann.paragraph_index.toNat
    let d1 := d.set i (d.getD i "" ++ "  [COMMENT: " ++ ann.comment ++ "]")
    match ann.match_text with
    | some _ => d1
    | none => insertAt "" i d1

/-- `docx_utils.insert_comment_simulation` on the visible paragraph texts:
fold the per-annotation step over the annotation list. -/
def insert_comment_simulation (doc : List String) (annotations : List Annot) : List String :=
  annotations.foldl insertCommentStep doc

/-- Shallow embedding of Python substring containment (`needle in hay`):
prefix test at every suffix. -/
def isPrefixCh : List Char → List Char → Bool
  | [], _ => true
  | _ :: _, [] => false
  | a :: xs, b :: ys => a == b && isPrefixCh xs ys

def isSubCh (needle : List Char) : List Char → Bool
  | [] => isPrefixCh needle []
  | b :: ys => isPrefixCh needle (b :: ys) || isSubCh needle ys

def containsKw (txt kw : String) : Bool := isSubCh kw.data txt.data

/-- `app.DOC_TYPE_KEYWORDS`, an insertion-ordered table. -/
def DOC_TYPE_KEYWORDS : List (String × List String) :=
  [("Articles of Association", ["articles of association", "articles", "aoa"]),
   ("Memorandum of Association", ["memorandum of association", "memorandum", "moa", "mou"]),
   ("Incorporation Application Form", ["incorporation application", "incorporation form"]),
   ("UBO Declaration Form", ["ubo declaration", "ubo form"]),
   ("Register of Members and Directors", ["register of members", "register of directors", "register of members and directors"])]

/-- `app.detect_document_type`: first label any of whose keywords occurs in
the lowercased text, else the two fallback heuristics, else unknown. -/
def detect_document_type (text : String) : String :=
  let txt := pyLower text
  match DOC_TYPE_KEYWORDS.find? (fun p => p.2.any (fun kw => containsKw txt kw)) with
  | some p => p.1
  | none =>
      if containsKw txt "article" && containsKw txt "association" then "Articles of Association"
      else if containsKw txt "memorandum" then "Memorandum of Association"
      else "Unknown Document Type"

/-- The result dict of `app.infer_process_and_checklist`. -/
structure ProcInfer where
  process : String
  documents_uploaded : Nat
  required_documents : Option Nat
  missing_documents : List String
deriving DecidableEq

/-- `CHECKLISTS.get(key, [])` over the checklist table (config data loaded
from `checklist.json`). -/
def lookupCk (checklists : List (String × List String)) (key : String) : List String :=
  match checklists.find? (fun p => p.1 == key) with
  | some p => p.2
  | none => []

/-- `app.infer_process_and_checklist`: count (with multiplicity) the uploaded
types that belong to the Company Incorporation required set; at two or more,
report that process and the required types absent from the uploads, else
report Unknown with no required/missing computation. -/
def infer_process_and_checklist (checklists : List (String × List String))
    (doc_types : List String) : ProcInfer :=
  let required := lookupCk checklists "Company Incorporation"
  let nMatches := doc_types.countP (fun t => required.contains t)
  if 2 ≤ nMatches then
    ⟨"Company Incorporation", doc_types.length, some required.length,
     required.filter (fun d => !(doc_types.contains d))⟩
  else
    ⟨"Unknown", doc_types.length, none, []⟩

/-- Squared Euclidean distance between embedding vectors (faiss
`IndexFlatL2`); vector entries are modelled as rationals. -/
def sqdist (u v : List Rat) : Rat :=
  (List.zipWith (fun a b => (a - b) * (a - b)) u v).sum

/-- Attach indices `i, i+1, ...` to a list of vectors. -/
def enumIdx (i : Nat) : List (List Rat) → List (Nat × List Rat)
  | [] => []
  | v :: vs => (i, v) :: enumIdx (i + 1) vs

/-- Insert into a list sorted by non-decreasing distance. -/
def insertByDist (x : Nat × Rat) : List (Nat × Rat) → List (Nat × Rat)
  | [] => [x]
  | y :: ys => if x.2 ≤ y.2 then x :: y :: ys else y :: insertByDist x ys

/-- Sort (index, distance) pairs by non-decreasing distance. -/
def sortByDist : List (Nat × Rat) → List (Nat × Rat)
  | [] => []
  | x :: xs => insertByDist x (sortByDist xs)

/-- Exact nearest-neighbour search of faiss `IndexFlatL2.search`: the stored
vectors' indices with their squared distances to the query, ordered by
non-decreasing distance, truncated to `k` (when fewer than `k` vectors are
stored, faiss pads with index -1, which the caller's guard discards, so the
model returns just the valid pairs). -/
def knn (embs : List (List Rat)) (q : List Rat) (k : Nat) : List (Nat × Rat) :=
  (sortByDist ((enumIdx 0 embs).map (fun p => (p.1, sqdist q p.2)))).take k

/-- `rag.SimpleRAGIndex`: the embedding model (external SentenceTransformer
capability), the optional faiss index (the stored embeddings; `none` until
`build_from_folder` has run), and the chunk texts. -/
structure SimpleRAGIndex where
  embed : String → List Rat
  index : Option (List (List Rat))
  texts : List String

/-- Python `s.split("\n\n")` specialised to the double-newline separator:
greedy left-to-right, non-overlapping. -/
def splitNN (acc : List Char) : List Char → List (List Char)
  | '\n' :: '\n' :: rest => acc.reverse :: splitNN [] rest
  | a :: rest => splitNN (a :: acc) rest
  | [] => [acc.reverse]

/-- The chunks `build_from_folder` derives from one file's raw text: split on
double newlines, strip, drop empties. -/
def fileChunks (raw : String) : List String :=
  (splitNN [] raw.data).filterMap (fun c =>
    let t := pyStrip (String.mk c)
    if t = "" then none else some t)

/-- Python `name.endswith(suffix)`. -/
def pyEndsWith (s suffix : String) : Bool :=
  isPrefixCh suffix.data.reverse s.data.reverse

/-- `rag.SimpleRAGIndex.build_from_folder`: chunk every `.txt` file, prefix
each chunk with its file name, fail on an empty corpus, otherwise store the
chunks and one embedding per chunk.  The folder is the list of
(file name, raw content) pairs the directory listing yields. -/
def build_from_folder (model : String → List Rat)
    (files : List (String × String)) : Except String SimpleRAGIndex :=
  let texts :=
    (files.filter (fun f => pyEndsWith (pyLower f.1) ".txt")).flatMap
      (fun f => (fileChunks f.2).map (fun c => "[" ++ f.1 ++ "] " ++ c))
  if texts.isEmpty then Except.error "No reference text files found in folder."
  else Except.ok ⟨model, some (texts.map model), texts⟩

/-- The guard of the output loop of `retrieve`: keep a searched (index,
distance) pair only when the index addresses a stored chunk (`continue`
otherwise), and pair the chunk's text with the distance. -/
def chunkAt (texts : List String) (p : Nat × Rat) : Option (String × Rat) :=
  if h : p.1 < texts.length then some (texts.get ⟨p.1, h⟩, p.2) else none

/-- `rag.SimpleRAGIndex.retrieve`: embed the query, search the faiss index,
keep the pairs whose index addresses a stored chunk.  Calling it before
`build` dereferences `self.index = None`, a raised `AttributeError`,
modelled as `Except.error`. -/
def retrieve (ri : SimpleRAGIndex) (query : String) (k : Nat) :
    Except String (List (String × Rat)) :=
  match ri.index with
  | none => Except.error "AttributeError: NoneType has no attribute search"
  | some embs =>
      let q_emb := ri.embed query
      Except.ok ((knn embs q_emb k).filterMap (chunkAt ri.texts))

/-- `p["document_paragraph_idx"] = idx` on a response object: set that key,
leave every other key (including a `paragraph_index` the response carried)
unchanged. -/
def setDPI (p : Finding) (idx : Int) : Finding :=
  ⟨p.document_index_paragraph, some idx, p.paragraph_index, p.document,
   p.issue, p.sect, p.severity, p.suggestion⟩

/-- A Finding dict with keys `document_paragraph_idx`, `issue`, `severity`,
`suggestion`, as `llm_review` builds on failure paths. -/
def mkFindingDPI (idx : Nat) (issue severity suggestion : String) : Finding :=
  ⟨none, some (idx : Int), none, none, some issue, none, some severity, some suggestion⟩

/-- The prompt f-string of `checker.llm_review`. -/
def mkPrompt (doc_name text context : String) : String :=
  "You are a legal assistant specialized in Abu Dhabi Global Market (ADGM) company regulations.\n" ++
  "Review the following paragraph from a " ++ doc_name ++ ":\n" ++
  "---PARAGRAPH---\n" ++ text ++ "\n---END PARAGRAPH---\n\n" ++
  "Here are relevant ADGM references retrieved:\n" ++ context ++ "\n\n" ++
  "Please:\n" ++
  "1) Identify whether this paragraph violates ADGM practice or contains red flags (jurisdiction, missing clause, ambiguous language).\n" ++
  "2) If an issue found, produce a short suggestion and cite the reference using the format [source: filename]. \n" ++
  "3) Return JSON list of objects with keys: paragraph_index, issue, severity, suggestion.\n"

/-- The message of the `RuntimeError` `checker.call_llm` raises without a key. -/
def noKeyMsg : String := "OPENAI_API_KEY not set; LLM call unavailable."

/-- `checker.call_llm`: raise when `OPENAI_API_KEY` is unset (or empty, which
is falsy), otherwise defer to the external completion capability `net`
(prompt to reply text, or a raised transport error). -/
def call_llm (key : Option String) (net : String → Except String String)
    (prompt : String) : Except String String :=
  match key with
  | none => Except.error noKeyMsg
  | some k => if k = "" then Except.error noKeyMsg else net prompt

/-- The quick filter of `checker.llm_review` (line 112): the alternation of
the ambiguous, federal-courts and signature pattern lists. -/
def llmTrigger (text : String) : Bool :=
  searchAny (AMBIGUOUS_TERMS ++ FEDERAL_COURTS_PATTERNS ++ SIGNATURE_PATTERNS) text

/-- The grounding context `llm_review` builds for a paragraph of a built
index: the retrieved chunk texts joined by blank lines. -/
def contextOf (ri : SimpleRAGIndex) (text : String) : String :=
  match retrieve ri text 3 with
  | Except.ok retrieved => pyJoin "\n\n" (retrieved.map Prod.fst)
  | Except.error _ => ""

/-- The body of `llm_review`'s loop for one selected paragraph: retrieve
grounding (an unbuilt index raises out of the whole call), build the prompt,
call the capability; a raised call yields one Low "LLM call failed" Finding
with the exception text as suggestion, an unparseable reply yields one Low
"non-JSON" Finding with the first 400 characters as suggestion, and a parsed
reply yields the response objects with `document_paragraph_idx` set to the
originating paragraph index. -/
def reviewOne (call : String → Except String String)
    (parse : String → Option (List Finding)) (ri : SimpleRAGIndex)
    (doc_name : String) (p : Nat × String) : Except String (List Finding) :=
  match retrieve ri p.2 3 with
  | Except.error e => Except.error e
  | Except.ok retrieved =>
      let context := pyJoin "\n\n" (retrieved.map Prod.fst)
      let prompt := mkPrompt doc_name p.2 context
      match call prompt with
      | Except.error e => Except.ok [mkFindingDPI p.1 "LLM call failed" "Low" e]
      | Except.ok out =>
          match parse out with
          | some parsed => Except.ok (parsed.map (fun q => setDPI q (p.1 : Int)))
          | none =>
              Except.ok [mkFindingDPI p.1 "LLM review returned non-JSON output" "Low" (pyTake out 400)]

/-- `checker.llm_review`: walk the paragraphs in order, review exactly those
passing the quick filter, and concatenate their Findings; an exception not
caught inside the loop (the retrieval step) aborts the whole call. `parse`
embeds `json.loads` followed by the per-object key assignment: `some`
exactly when the reply is a JSON list of objects. -/
def llm_review (call : String → Except String String)
    (parse : String → Option (List Finding)) (ri : SimpleRAGIndex)
    (doc_name : String) : List (Nat × String) → Except String (List Finding)
  | [] => Except.ok []
  | p :: rest =>
      if llmTrigger p.2 then
        match reviewOne call parse ri doc_name p with
        | Except.error e => Except.error e
        | Except.ok here =>
            match llm_review call parse ri doc_name rest with
            | Except.error e => Except.error e
            | Except.ok more => Except.ok (here ++ more)
      else llm_review call parse ri doc_name rest

/-- `llm_review` with the quick filter removed: review every paragraph of
the input.  Used to state which paragraphs `llm_review` selects. -/
def processAll (call : String → Except String String)
    (parse : String → Option (List Finding)) (ri : SimpleRAGIndex)
    (doc_name : String) : List (Nat × String) → Except String (List Finding)
  | [] => Except.ok []
  | p :: rest =>
      match reviewOne call parse ri doc_name p with
      | Except.error e => Except.error e
      | Except.ok here =>
          match processAll call parse ri doc_name rest with
          | Except.error e => Except.error e
          | Except.ok more => Except.ok (here ++ more)

/-- A tiny built index for concrete runs. -/
def ri0 : SimpleRAGIndex := ⟨fun _ => [], some [[]], ["[r.txt] ref"]⟩

/-- Python `f"{x}"` on an optional string (an absent dict key prints as
`None`). -/
def optStr : Option String → String
  | some s => s
  | none => "None"

/-- The paragraph-index lookup of `app.analyze_documents` (line 122): the
`document_index_paragraph` key if present, else `document_paragraph_idx`,
else absent. -/
def finding_para_idx (it : Finding) : Option Int :=
  match it.document_index_paragraph with
  | some v => some v
  | none => it.document_paragraph_idx

/-- The annotation `app.analyze_documents` derives from one Finding (lines
120-130): attach to the Finding's paragraph index; with no index, attach to
`len(paras) - 1` (`paras` the extracted sequence), or 0 when it is empty;
`match_text` is always absent and the comment is `issue + ": " + suggestion`. -/
def derive_annot (paras : List (Nat × String)) (it : Finding) : Annot :=
  ⟨(match finding_para_idx it with
    | some v => v
    | none => if paras.isEmpty then 0 else (paras.length : Int) - 1),
   none,
   optStr it.issue ++ ": " ++ optStr it.suggestion⟩

/-- An uploaded document: its (sanitised base) file name and the ordered raw
paragraph texts the external document library parses out of it. -/
structure DocFile where
  name : String
  rawParas : List String
deriving DecidableEq

def docParas (d : DocFile) : List (Nat × String) :=
  extract_structured_text d.rawParas

/-- `combined_text` of `app.analyze_documents`. -/
def docCombined (d : DocFile) : String :=
  pyJoin "\n" ((docParas d).map Prod.snd)

def docType (d : DocFile) : String :=
  detect_document_type (docCombined d)

/-- The fallback Finding `analyze_documents` appends when `llm_review`
itself raises (keys `document`, `issue`, `severity`, `suggestion`). -/
def llmReviewFailed (docname e : String) : Finding :=
  ⟨none, none, none, some docname, some "LLM review failed", none, some "Low", some e⟩

/-- The issue list `analyze_documents` accumulates for one document:
heuristic then document-level Findings, then — when LLM review is enabled
and a retrieval index exists — the Grounded Reviewer's Findings, a raised
review being caught into one fallback Finding. -/
def docIssues (key : Option String) (net : String → Except String String)
    (parse : String → Option (List Finding)) (rag : Option SimpleRAGIndex)
    (use_llm : Bool) (d : DocFile) : List Finding :=
  let issues0 := heuristic_checks (docParas d) ++ document_level_checks (docParas d)
  if use_llm then
    match rag with
    | some ri =>
        match llm_review (call_llm key net) parse ri (docType d) (docParas d) with
        | Except.ok l => issues0 ++ l
        | Except.error e => issues0 ++ [llmReviewFailed d.name e]
    | none => issues0
  else issues0

/-- The annotations `analyze_documents` prepares for one document. -/
def docAnnots (key : Option String) (net : String → Except String String)
    (parse : String → Option (List Finding)) (rag : Option SimpleRAGIndex)
    (use_llm : Bool) (d : DocFile) : List Annot :=
  (docIssues key net parse rag use_llm d).map (derive_annot (docParas d))

/-- The reviewed copy `analyze_documents` writes for one document. -/
def reviewedDoc (key : Option String) (net : String → Except String String)
    (parse : String → Option (List Finding)) (rag : Option SimpleRAGIndex)
    (use_llm : Bool) (d : DocFile) : List String :=
  insert_comment_simulation d.rawParas (docAnnots key net parse rag use_llm d)

/-- An entry of the aggregate `issues` list of the analysis result. -/
structure IssueOut where
  document : String
  doc_type : String
  sect : Option String
  issue : Option String
  severity : Option String
  suggestion : Option String
deriving DecidableEq

def toIssueOut (docname dtype : String) (it : Finding) : IssueOut :=
  ⟨docname, dtype, it.sect, it.issue, it.severity, it.suggestion⟩

/-- An entry of the `summary` list of the analysis result. -/
structure SummaryOut where
  file : String
  dtype : String
  issues_found : Nat
deriving DecidableEq

/-- The result dict of `app.analyze_documents`. -/
structure AnalysisResult where
  process : String
  documents_uploaded : Nat
  required_documents : Option Nat
  missing_documents : List String
  summary : List SummaryOut
  issues : List IssueOut
  reviewed_files : List String
deriving DecidableEq

/-- `app.analyze_documents`: per uploaded document extract, classify, run the
rule engine and optionally the Grounded Reviewer, then infer the process
over the collected types and assemble the result. -/
def analyze_documents (checklists : List (String × List String))
    (key : Option String) (net : String → Except String String)
    (parse : String → Option (List Finding)) (rag : Option SimpleRAGIndex)
    (docs : List DocFile) (use_llm : Bool) : AnalysisResult :=
  let proc := infer_process_and_checklist checklists (docs.map docType)
  ⟨proc.process, proc.documents_uploaded, proc.required_documents,
   proc.missing_documents,
   docs.map (fun d => ⟨d.name, docType d, (docIssues key net parse rag use_llm d).length⟩),
   docs.flatMap (fun d =>
     (docIssues key net parse rag use_llm d).map (toIssueOut d.name (docType d))),
   docs.map (fun d => "outputs/reviewed_" ++ d.name)⟩

/-! ## Lemmas about the pattern matcher -/

theorem matchTok_strLits (w : List Char) :
    ∀ (prev : Option Char) (rest : List Char),
      matchTok (w.map RTok.lit) prev (w ++ rest) = true := by
  induction w with
  | nil => intro prev rest; rfl
  | cons c cs ih =>
      intro prev rest
      simp only [List.map_cons, List.cons_append, matchTok, Bool.and_eq_true]
      exact ⟨by simp [eqCI], ih (some c) rest⟩

theorem searchFrom_of_match (pat : List RTok) :
    ∀ (pre : List Char) (prev : Option Char) (s : List Char),
      (∀ pv, matchTok pat pv s = true) →
      searchFrom pat prev (pre ++ s) = true := by
  intro pre
  induction pre with
  | nil =>
      intro prev s h
      cases s with
      | nil => simpa [searchFrom] using h prev
      | cons a s' => simp [searchFrom, h prev]
  | cons a pre' ih =>
      intro prev s h
      simp [searchFrom, ih (some a) s h]

theorem re_search_of_infix (w : String) (text : String)
    (h : List.IsInfix w.data text.data) :
    re_search (strLits w) text = true := by
  obtain ⟨s, t, hst⟩ := h
  unfold re_search strLits
  rw [← hst, List.append_assoc]
  exact searchFrom_of_match _ s none (w.data ++ t)
    (fun pv => matchTok_strLits w.data pv t)

/-! ## Lemmas about the rule engine and the extractor -/

theorem fed_mem_heuristic_checks (paras : List (Nat × String)) (idx : Nat)
    (text : String) (hmem : (idx, text) ∈ paras)
    (hsearch : searchAny FEDERAL_COURTS_PATTERNS text = true) :
    fedFinding idx ∈ heuristic_checks paras := by
  induction paras with
  | nil => cases hmem
  | cons q rest ih =>
      rcases List.mem_cons.1 hmem with heq | hr
      · subst heq
        simp only [heuristic_checks, hsearch, if_true, List.mem_append]
        left; left
        exact List.mem_singleton.2 rfl
      · simp only [heuristic_checks, List.mem_append]
        right
        exact ih hr

theorem mem_extractFrom (l : List String) :
    ∀ (i : Nat) (q : Nat × String), q ∈ extractFrom i l →
      i ≤ q.1 ∧ q.2 ≠ "" ∧ ∃ s, l.get? (q.1 - i) = some s ∧ pyStrip s = q.2 := by
  induction l with
  | nil => intro i q h; cases h
  | cons p rest ih =>
      intro i q h
      by_cases hp : pyStrip p = ""
      · have h' : q ∈ extractFrom (i + 1) rest := by
          simpa [extractFrom, hp] using h
        obtain ⟨hle, hne, s, hs, hstrip⟩ := ih (i + 1) q h'
        refine ⟨by omega, hne, s, ?_, hstrip⟩
        have hsub : q.1 - i = (q.1 - (i + 1)) + 1 := by omega
        rw [hsub]
        simpa using hs
      · have h' : q = (i, pyStrip p) ∨ q ∈ extractFrom (i + 1) rest := by
          simpa [extractFrom, hp] using h
        rcases h' with heq | hmem
        · subst heq
          exact ⟨le_refl i, hp, p, by simp, rfl⟩
        · obtain ⟨hle, hne, s, hs, hstrip⟩ := ih (i + 1) q hmem
          refine ⟨by omega, hne, s, ?_, hstrip⟩
          have hsub : q.1 - i = (q.1 - (i + 1)) + 1 := by omega
          rw [hsub]
          simpa using hs

theorem pairwise_extractFrom (l : List String) :
    ∀ i : Nat, List.Pairwise (fun a b => a < b) ((extractFrom i l).map Prod.fst) := by
  induction l with
  | nil => intro i; simp [extractFrom]
  | cons p rest ih =>
      intro i
      by_cases hp : pyStrip p = ""
      · simpa [extractFrom, hp] using ih (i + 1)
      · rw [extractFrom, if_neg hp]
        simp only [List.map_cons, List.pairwise_cons]
        refine ⟨?_, ih (i + 1)⟩
        intro b hb
        obtain ⟨q, hq, hqb⟩ := List.mem_map.1 hb
        have := (mem_extractFrom rest (i + 1) q hq).1
        omega

/-! ## Claim theorems -/

/-- C7: for every document, the Paragraph Extractor returns pairs whose
indices strictly increase, whose texts are non-empty after stripping, and
whose index addresses the corresponding paragraph in the document's native
(unfiltered) paragraph list, so filtering empties neither reorders nor
renumbers the survivors. -/
theorem C7_extraction_indices (doc : List String) :
    List.Pairwise (fun a b => a < b) ((extract_structured_text doc).map Prod.fst) ∧
    ∀ q ∈ extract_structured_text doc,
      q.2 ≠ "" ∧ ∃ s, doc.get? q.1 = some s ∧ pyStrip s = q.2 := by
  constructor
  · exact pairwise_extractFrom doc 0
  · intro q hq
    obtain ⟨_, hne, s, hs, hstrip⟩ := mem_extractFrom doc 0 q hq
    exact ⟨hne, s, by simpa using hs, hstrip⟩

/-- C7 witness: the extractor on a concrete document with an empty and a
padded paragraph. -/
theorem C7_witness :
    List.Pairwise (fun a b => a < b)
      ((extract_structured_text ["", " a ", "b"]).map Prod.fst) ∧
    ("a" ≠ "" ∧ ∃ s, ["", " a ", "b"].get? 1 = some s ∧ pyStrip s = "a") := by
  refine ⟨(C7_extraction_indices ["", " a ", "b"]).1, ?_⟩
  exact (C7_extraction_indices ["", " a ", "b"]).2 (1, "a") (by decide)

/-- C8: a paragraph whose text contains the literal substring
"UAE Federal Courts" yields the High-severity wrong-jurisdiction Finding
carrying that paragraph's index, and a paragraph containing "ADGM Courts"
alone (no federal-courts phrasing) yields no Finding at all from the
per-paragraph detectors, in particular no wrong-jurisdiction one. -/
theorem C8_federal_courts :
    (∀ (paras : List (Nat × String)) (idx : Nat) (text : String),
        (idx, text) ∈ paras →
        List.IsInfix "UAE Federal Courts".data text.data →
        fedFinding idx ∈ heuristic_checks paras) ∧
    ∀ idx : Nat, heuristic_checks [(idx, "ADGM Courts")] = [] := by
  constructor
  · intro paras idx text hmem hinf
    apply fed_mem_heuristic_checks paras idx text hmem
    have h1 : re_search (strLits "UAE Federal Courts") text = true :=
      re_search_of_infix "UAE Federal Courts" text hinf
    simp [searchAny, FEDERAL_COURTS_PATTERNS, h1]
  · intro idx
    have h1 : searchAny FEDERAL_COURTS_PATTERNS "ADGM Courts" = false := by decide
    have h2 : re_search (wordPat "may") "ADGM Courts" = false := by decide
    have h3 : re_search (wordPat "possible") "ADGM Courts" = false := by decide
    have h4 : re_search (wordPat "subject to") "ADGM Courts" = false := by decide
    have h5 : re_search (wordPat "as appropriate") "ADGM Courts" = false := by decide
    have h6 : re_search (wordPat "where practicable") "ADGM Courts" = false := by decide
    simp [heuristic_checks, AMBIGUOUS_CORES, h1, h2, h3, h4, h5, h6]

/-- C8 witness: a concrete paragraph list containing the phrase. -/
theorem C8_witness :
    fedFinding 5 ∈ heuristic_checks [(4, "hello"), (5, "go to the UAE Federal Courts now")] := by
  apply C8_federal_courts.1 _ 5 "go to the UAE Federal Courts now" (by decide)
  exact ⟨"go to the ".data, " now".data, by decide⟩

theorem length_extractFrom (l : List String) :
    ∀ i : Nat, (extractFrom i l).length = l.countP (fun s => !(pyStrip s == "")) := by
  induction l with
  | nil => intro i; simp [extractFrom]
  | cons p rest ih =>
      intro i
      by_cases hp : pyStrip p = ""
      · rw [extractFrom, if_pos hp]
        simp [List.countP_cons, hp, ih (i + 1)]
      · rw [extractFrom, if_neg hp]
        simp only [List.length_cons, List.countP_cons, ih (i + 1)]
        have : (pyStrip p == "") = false := by
          simpa [beq_iff_eq] using hp
        simp [this]

/-- C1 counterexample: for the two-paragraph document `["", "x"]` the
extracted sequence is `[(1, "x")]`, whose last (and only) pair carries the
native index 1, the document-level missing-signature Finding is indeed
emitted and carries no paragraph index, yet the Annotation the orchestrator
derives from it gets paragraph_index 0 (`len(paras) - 1`), not 1. -/
theorem C1_counterexample :
    extract_structured_text ["", "x"] = [(1, "x")] ∧
    sigMissing ∈ document_level_checks (extract_structured_text ["", "x"]) ∧
    finding_para_idx sigMissing = none ∧
    (derive_annot (extract_structured_text ["", "x"]) sigMissing).paragraph_index = 0 ∧
    ¬ (derive_annot (extract_structured_text ["", "x"]) sigMissing).paragraph_index = 1 := by
  refine ⟨by decide, by decide, by decide, by decide, by decide⟩

/-- C1 (amended): for every document-level Finding (no paragraph index), the
derived Annotation's paragraph_index is the number of extracted (non-empty)
paragraphs minus one — the last position of the filtered sequence, which is
not in general the native index of its last pair — or 0 when the document
has no non-empty paragraph. -/
theorem C1_default_annotation_index (raw : List String) (it : Finding)
    (h : finding_para_idx it = none) :
    (derive_annot (extract_structured_text raw) it).paragraph_index =
      (if raw.countP (fun s => !(pyStrip s == "")) = 0 then 0
       else (raw.countP (fun s => !(pyStrip s == "")) : Int) - 1) := by
  unfold derive_annot
  rw [h]
  have hlen : (extract_structured_text raw).length =
      raw.countP (fun s => !(pyStrip s == "")) := length_extractFrom raw 0
  by_cases hz : raw.countP (fun s => !(pyStrip s == "")) = 0
  · have : (extract_structured_text raw).isEmpty = true := by
      rw [List.isEmpty_iff_length_eq_zero, hlen, hz]
    simp [this, hz]
  · have : (extract_structured_text raw).isEmpty = false := by
      rw [List.isEmpty_eq_false_iff_exists_mem]
      have : (extract_structured_text raw).length ≠ 0 := by rw [hlen]; exact hz
      exact List.exists_mem_of_length_pos (Nat.pos_of_ne_zero this)
    simp [this, hz, hlen]

/-- C1 witness: a document with one non-empty paragraph among three;
the default annotation index is 0. -/
theorem C1_witness :
    finding_para_idx jurMissing = none ∧
    (derive_annot (extract_structured_text ["", "a", ""]) jurMissing).paragraph_index =
      (if ["", "a", ""].countP (fun s => !(pyStrip s == "")) = 0 then 0
       else ((["", "a", ""].countP (fun s => !(pyStrip s == ""))) : Int) - 1) := by
  exact ⟨by decide, C1_default_annotation_index ["", "a", ""] jurMissing (by decide)⟩

/-- C2: the Annotation Writer at the failing input.  The claim says each
in-range Annotation's comment is appended to the paragraph at its own
native index with everything else unchanged; the code also executes
`para.insert_paragraph_before("")` for every annotation without
`match_text`, so after the first annotation the indices shift: annotating
`["A", "B"]` at indices 0 and 1 appends both comments to paragraph "A",
leaves "B" untouched, and inserts two stray empty paragraphs. -/
theorem C2_bug_eval :
    insert_comment_simulation ["A", "B"] [⟨0, none, "c1"⟩, ⟨1, none, "c2"⟩] =
      ["", "", "A  [COMMENT: c1]  [COMMENT: c2]", "B"] ∧
    ¬ "B  [COMMENT: c2]" ∈
        insert_comment_simulation ["A", "B"] [⟨0, none, "c1"⟩, ⟨1, none, "c2"⟩] := by
  refine ⟨by decide, by decide⟩

/-- C10: Process Inference counts (with multiplicity) the uploaded types in
the Company Incorporation required set: at two or more it reports that
process with exactly the required types absent from the uploads (and the
required count), otherwise it reports Unknown with no required count and no
missing list. -/
theorem C10_process_inference (checklists : List (String × List String))
    (doc_types : List String) :
    (2 ≤ doc_types.countP (fun t => (lookupCk checklists "Company Incorporation").contains t) →
      (infer_process_and_checklist checklists doc_types).process = "Company Incorporation" ∧
      (infer_process_and_checklist checklists doc_types).documents_uploaded = doc_types.length ∧
      (infer_process_and_checklist checklists doc_types).required_documents =
        some (lookupCk checklists "Company Incorporation").length ∧
      (infer_process_and_checklist checklists doc_types).missing_documents =
        (lookupCk checklists "Company Incorporation").filter (fun d => !(doc_types.contains d))) ∧
    (doc_types.countP (fun t => (lookupCk checklists "Company Incorporation").contains t) < 2 →
      (infer_process_and_checklist checklists doc_types).process = "Unknown" ∧
      (infer_process_and_checklist checklists doc_types).documents_uploaded = doc_types.length ∧
      (infer_process_and_checklist checklists doc_types).required_documents = none ∧
      (infer_process_and_checklist checklists doc_types).missing_documents = []) := by
  constructor
  · intro h
    unfold infer_process_and_checklist
    rw [if_pos h]
    exact ⟨rfl, rfl, rfl, rfl⟩
  · intro h
    unfold infer_process_and_checklist
    rw [if_neg (by omega)]
    exact ⟨rfl, rfl, rfl, rfl⟩

/-- The Company Incorporation checklist table (`checklist.json` config data):
the five required document types of the specification. -/
def ck5 : List (String × List String) :=
  [("Company Incorporation",
    ["Articles of Association", "Memorandum of Association",
     "Incorporation Application Form", "UBO Declaration Form",
     "Register of Members and Directors"])]

/-- C10 witness: two uploaded copies of the same required type reach the
threshold (multiplicity), and the missing list is the other four required
types. -/
theorem C10_witness :
    (infer_process_and_checklist ck5
      ["Articles of Association", "Articles of Association"]).process = "Company Incorporation" ∧
    (infer_process_and_checklist ck5
      ["Articles of Association", "Articles of Association"]).missing_documents =
      ["Memorandum of Association", "Incorporation Application Form",
       "UBO Declaration Form", "Register of Members and Directors"] := by
  have h := (C10_process_inference ck5
    ["Articles of Association", "Articles of Association"]).1 (by decide)
  exact ⟨h.1, h.2.2.2.trans (by decide)⟩

/-! ## Lemmas about the Grounded Reviewer -/

theorem reviewOne_call_error (call : String → Except String String)
    (parse : String → Option (List Finding)) (ri : SimpleRAGIndex)
    (embs : List (List Rat)) (dn : String) (errf : String → String)
    (hi : ri.index = some embs)
    (hcall : ∀ s, call s = Except.error (errf s)) (p : Nat × String) :
    reviewOne call parse ri dn p =
      Except.ok [mkFindingDPI p.1 "LLM call failed" "Low"
        (errf (mkPrompt dn p.2 (contextOf ri p.2)))] := by
  unfold reviewOne contextOf retrieve
  rw [hi]
  simp [hcall]

theorem llm_review_call_error (call : String → Except String String)
    (parse : String → Option (List Finding)) (ri : SimpleRAGIndex)
    (embs : List (List Rat)) (dn : String) (errf : String → String)
    (hi : ri.index = some embs)
    (hcall : ∀ s, call s = Except.error (errf s)) :
    ∀ paras, llm_review call parse ri dn paras =
      Except.ok ((paras.filter (fun p => llmTrigger p.2)).map
        (fun p => mkFindingDPI p.1 "LLM call failed" "Low"
          (errf (mkPrompt dn p.2 (contextOf ri p.2))))) := by
  intro paras
  induction paras with
  | nil => simp [llm_review]
  | cons p rest ih =>
      by_cases h : llmTrigger p.2 = true
      · rw [llm_review, if_pos h,
          reviewOne_call_error call parse ri embs dn errf hi hcall p, ih]
        simp [List.filter_cons, h]
      · rw [llm_review, if_neg h, ih]
        simp only [List.filter_cons]
        rw [if_neg h]

theorem reviewOne_parse_ok (ri : SimpleRAGIndex) (embs : List (List Rat))
    (dn : String) (netf : String → String) (objsOf : String → List Finding)
    (hi : ri.index = some embs) (p : Nat × String) :
    reviewOne (fun s => Except.ok (netf s)) (fun s => some (objsOf s)) ri dn p =
      Except.ok ((objsOf (netf (mkPrompt dn p.2 (contextOf ri p.2)))).map
        (fun q => setDPI q (p.1 : Int))) := by
  unfold reviewOne contextOf retrieve
  rw [hi]

theorem llm_review_parse_ok (ri : SimpleRAGIndex) (embs : List (List Rat))
    (dn : String) (netf : String → String) (objsOf : String → List Finding)
    (hi : ri.index = some embs) :
    ∀ paras, llm_review (fun s => Except.ok (netf s)) (fun s => some (objsOf s)) ri dn paras =
      Except.ok ((paras.filter (fun p => llmTrigger p.2)).flatMap
        (fun p => (objsOf (netf (mkPrompt dn p.2 (contextOf ri p.2)))).map
          (fun q => setDPI q (p.1 : Int)))) := by
  intro paras
  induction paras with
  | nil => simp [llm_review]
  | cons p rest ih =>
      by_cases h : llmTrigger p.2 = true
      · rw [llm_review, if_pos h, reviewOne_parse_ok ri embs dn netf objsOf hi p, ih]
        simp [List.filter_cons, h]
      · rw [llm_review, if_neg h, ih]
        simp only [List.filter_cons]
        rw [if_neg h]

/-- C3: for every paragraph sequence and every reasoning capability that
raises on every call (`errf` giving each call's exception text), the
Grounded Reviewer returns normally (never propagates the exception) with
exactly one Low-severity "LLM call failed" Finding per triggering
paragraph, whose suggestion is that call's failure detail; paragraphs after
a failing one are still processed. -/
theorem C3_call_failure_findings (call : String → Except String String)
    (parse : String → Option (List Finding)) (ri : SimpleRAGIndex)
    (embs : List (List Rat)) (dn : String) (errf : String → String)
    (paras : List (Nat × String)) (hi : ri.index = some embs)
    (hcall : ∀ s, call s = Except.error (errf s)) :
    llm_review call parse ri dn paras =
      Except.ok ((paras.filter (fun p => llmTrigger p.2)).map
        (fun p => mkFindingDPI p.1 "LLM call failed" "Low"
          (errf (mkPrompt dn p.2 (contextOf ri p.2))))) :=
  llm_review_call_error call parse ri embs dn errf hi hcall paras

/-- C3 witness: an always-raising capability over one triggering and one
non-triggering paragraph yields exactly the one failure Finding. -/
theorem C3_witness :
    llm_review (fun _ => Except.error "boom") (fun _ => none) ri0 "Document"
      [(0, "it may rain"), (1, "hello")] =
      Except.ok [mkFindingDPI 0 "LLM call failed" "Low" "boom"] := by
  have h := C3_call_failure_findings (fun _ => Except.error "boom") (fun _ => none)
    ri0 [[]] "Document" (fun _ => "boom")
    [(0, "it may rain"), (1, "hello")] rfl (fun _ => rfl)
  exact h.trans (by rfl)

/-- C4 (amended): the Grounded Reviewer reviews exactly the paragraphs
matching the union of the ambiguous-language, federal-courts and signature
trigger categories; the domain-jurisdiction (`JURISDICTION_PATTERNS`)
category, although used by the Rule Engine's document-level check, is not
part of the filter. -/
theorem C4_trigger_selection (call : String → Except String String)
    (parse : String → Option (List Finding)) (ri : SimpleRAGIndex) (dn : String) :
    (∀ paras, llm_review call parse ri dn paras =
      processAll call parse ri dn (paras.filter (fun p => llmTrigger p.2))) ∧
    ∀ text, llmTrigger text =
      (searchAny AMBIGUOUS_TERMS text || searchAny FEDERAL_COURTS_PATTERNS text ||
        searchAny SIGNATURE_PATTERNS text) := by
  constructor
  · intro paras
    induction paras with
    | nil => simp [llm_review, processAll]
    | cons p rest ih =>
        by_cases h : llmTrigger p.2 = true
        · simp only [llm_review, h, if_true, List.filter_cons, processAll, ih]
        · simp only [llm_review, h, Bool.false_eq_true, if_false, List.filter_cons, ih]
  · intro text
    simp [llmTrigger, searchAny, List.any_append, Bool.or_assoc]

/-- C4 counterexample: "Governed by ADGM law." matches a Rule Engine
trigger category (the domain-jurisdiction patterns, used by
`document_level_checks`) but the Grounded Reviewer does not select it:
even with a capability that would record a failure Finding for every
reviewed paragraph, no Finding is produced. -/
theorem C4_counterexample :
    searchAny (AMBIGUOUS_TERMS ++ JURISDICTION_PATTERNS ++
      FEDERAL_COURTS_PATTERNS ++ SIGNATURE_PATTERNS) "Governed by ADGM law." = true ∧
    searchAny JURISDICTION_PATTERNS "Governed by ADGM law." = true ∧
    llmTrigger "Governed by ADGM law." = false ∧
    llm_review (fun _ => Except.error "boom") (fun _ => none) ri0 "Document"
      [(0, "Governed by ADGM law.")] = Except.ok [] :=
  ⟨by decide, by decide, by decide, by rfl⟩

/-- C5 (amended): when every call's reply parses as the structured list,
the Grounded Reviewer emits the parsed objects with the originating
paragraph's index stored in `document_paragraph_idx` — the field the
orchestrator's paragraph-index lookup reads (when the object carries no
`document_index_paragraph` key, the lookup resolves to the originating
index); the reply's own `paragraph_index` field is retained unchanged but
never read by the pipeline's addressing. -/
theorem C5_parsed_response_indices (ri : SimpleRAGIndex) (embs : List (List Rat))
    (dn : String) (netf : String → String) (objsOf : String → List Finding)
    (hi : ri.index = some embs) :
    (∀ paras, llm_review (fun s => Except.ok (netf s)) (fun s => some (objsOf s)) ri dn paras =
      Except.ok ((paras.filter (fun p => llmTrigger p.2)).flatMap
        (fun p => (objsOf (netf (mkPrompt dn p.2 (contextOf ri p.2)))).map
          (fun q => setDPI q (p.1 : Int))))) ∧
    (∀ (q : Finding) (idx : Int),
      (setDPI q idx).document_paragraph_idx = some idx ∧
      (setDPI q idx).paragraph_index = q.paragraph_index ∧
      (q.document_index_paragraph = none →
        finding_para_idx (setDPI q idx) = some idx)) := by
  constructor
  · exact llm_review_parse_ok ri embs dn netf objsOf hi
  · intro q idx
    refine ⟨rfl, rfl, fun hq => ?_⟩
    simp [finding_para_idx, setDPI, hq]

/-- A parsed response object carrying its own (untrusted) paragraph_index. -/
def obj999 : Finding :=
  ⟨none, none, some 999, none, some "flag", none, some "High", some "fix"⟩

/-- C5 counterexample: the response object's own `paragraph_index` field
(999) survives in the emitted Finding unchanged — it is kept, not
overwritten with the originating index 2. -/
theorem C5_counterexample :
    llm_review (fun _ => Except.ok "resp") (fun _ => some [obj999]) ri0 "Document"
      [(2, "Signed by A")] = Except.ok [setDPI obj999 2] ∧
    (setDPI obj999 2).paragraph_index = some 999 ∧
    ¬ (setDPI obj999 2).paragraph_index = some 2 :=
  ⟨by rfl, by rfl, by decide⟩

/-- C5 witness: a concrete parsed run, one triggering paragraph; the
orchestrator's index lookup on the emitted Finding resolves to the
originating index. -/
theorem C5_witness :
    llm_review (fun _ => Except.ok "resp") (fun _ => some [obj999]) ri0 "Document"
      [(3, "it may rain")] = Except.ok [setDPI obj999 3] ∧
    finding_para_idx (setDPI obj999 3) = some 3 := by
  have h := (C5_parsed_response_indices ri0 [[]] "Document" (fun _ => "resp")
    (fun _ => [obj999]) rfl).1 [(3, "it may rain")]
  refine ⟨h.trans (by rfl), ?_⟩
  exact ((C5_parsed_response_indices ri0 [[]] "Document" (fun _ => "resp")
    (fun _ => [obj999]) rfl).2 obj999 3).2.2 (by rfl)

/-- C6 (amended): the orchestrator's guard is `use_llm and rag_index is not
None` — it never checks the credential.  With no credential set, LLM review
enabled and an index present, the Grounded Reviewer is still invoked and
each triggering paragraph contributes a Low-severity "LLM call failed"
Finding (suggestion: the missing-key message) to the result's issues; only
disabling LLM review (or having no index) prevents the invocation. -/
theorem C6_no_key_reviewer (ck : List (String × List String))
    (net : String → Except String String) (parse : String → Option (List Finding))
    (ri : SimpleRAGIndex) (embs : List (List Rat)) (docs : List DocFile)
    (hi : ri.index = some embs) :
    ((analyze_documents ck none net parse (some ri) docs true).issues =
      docs.flatMap (fun d =>
        ((heuristic_checks (docParas d) ++ document_level_checks (docParas d)) ++
          ((docParas d).filter (fun p => llmTrigger p.2)).map (fun p =>
            mkFindingDPI p.1 "LLM call failed" "Low" noKeyMsg)).map
          (toIssueOut d.name (docType d)))) ∧
    ∀ key, (analyze_documents ck key net parse (some ri) docs false).issues =
      docs.flatMap (fun d =>
        (heuristic_checks (docParas d) ++ document_level_checks (docParas d)).map
          (toIssueOut d.name (docType d))) := by
  have hrev : ∀ (dn : String) (paras : List (Nat × String)),
      llm_review (call_llm none net) parse ri dn paras =
        Except.ok ((paras.filter (fun p => llmTrigger p.2)).map
          (fun p => mkFindingDPI p.1 "LLM call failed" "Low" noKeyMsg)) :=
    fun dn paras =>
      llm_review_call_error (call_llm none net) parse ri embs dn
        (fun _ => noKeyMsg) hi (fun _ => rfl) paras
  constructor
  · simp only [analyze_documents, docIssues, if_true, hrev]
  · intro key
    simp only [analyze_documents, docIssues, Bool.false_eq_true, if_false]

/-- C6 witness: a concrete run with no key, LLM review on, one triggering
paragraph. -/
theorem C6_witness :
    (analyze_documents [] none (fun _ => Except.ok "ok") (fun _ => none)
        (some ri0) [⟨"d.docx", ["it may rain"]⟩] true).issues =
      [(⟨"d.docx", ["it may rain"]⟩ : DocFile)].flatMap (fun d =>
        ((heuristic_checks (docParas d) ++ document_level_checks (docParas d)) ++
          ((docParas d).filter (fun p => llmTrigger p.2)).map (fun p =>
            mkFindingDPI p.1 "LLM call failed" "Low" noKeyMsg)).map
          (toIssueOut d.name (docType d))) :=
  (C6_no_key_reviewer [] (fun _ => Except.ok "ok") (fun _ => none) ri0 [[]]
    [⟨"d.docx", ["it may rain"]⟩] rfl).1

/-- C6 counterexample: with no credential configured (and LLM review
enabled, index present) a Finding originating from the Grounded Reviewer —
issue "LLM call failed", suggestion the missing-key message — appears in
the analysis result, so the orchestrator did invoke the reviewer. -/
theorem C6_counterexample :
    toIssueOut "d.docx" "Unknown Document Type"
        (mkFindingDPI 0 "LLM call failed" "Low" noKeyMsg) ∈
      (analyze_documents [] none (fun _ => Except.ok "ok") (fun _ => none)
        (some ri0) [⟨"d.docx", ["it may rain"]⟩] true).issues := by
  decide

/-! ## Lemmas about the Retrieval Index -/

theorem length_insertByDist (x : Nat × Rat) (l : List (Nat × Rat)) :
    (insertByDist x l).length = l.length + 1 := by
  induction l with
  | nil => rfl
  | cons y ys ih =>
      by_cases h : x.2 ≤ y.2
      · simp [insertByDist, h]
      · simp [insertByDist, h, ih]

theorem mem_insertByDist {a x : Nat × Rat} {l : List (Nat × Rat)}
    (h : a ∈ insertByDist x l) : a = x ∨ a ∈ l := by
  induction l with
  | nil => simpa [insertByDist] using h
  | cons y ys ih =>
      by_cases hx : x.2 ≤ y.2
      · rw [insertByDist, if_pos hx] at h
        simpa using h
      · rw [insertByDist, if_neg hx] at h
        rcases List.mem_cons.1 h with hy | hrest
        · exact Or.inr (hy ▸ List.mem_cons_self y ys)
        · rcases ih hrest with h1 | h2
          · exact Or.inl h1
          · exact Or.inr (List.mem_cons_of_mem y h2)

theorem length_sortByDist (l : List (Nat × Rat)) :
    (sortByDist l).length = l.length := by
  induction l with
  | nil => rfl
  | cons x xs ih => simp [sortByDist, length_insertByDist, ih]

theorem mem_sortByDist {a : Nat × Rat} {l : List (Nat × Rat)}
    (h : a ∈ sortByDist l) : a ∈ l := by
  induction l with
  | nil => simp [sortByDist] at h
  | cons x xs ih =>
      rw [sortByDist] at h
      rcases mem_insertByDist h with h1 | h2
      · exact h1 ▸ List.mem_cons_self x xs
      · exact List.mem_cons_of_mem x (ih h2)

theorem pairwise_insertByDist (x : Nat × Rat) (l : List (Nat × Rat))
    (h : List.Pairwise (fun a b => a.2 ≤ b.2) l) :
    List.Pairwise (fun a b => a.2 ≤ b.2) (insertByDist x l) := by
  induction l with
  | nil => simp [insertByDist]
  | cons y ys ih =>
      rw [List.pairwise_cons] at h
      by_cases hx : x.2 ≤ y.2
      · rw [insertByDist, if_pos hx, List.pairwise_cons]
        refine ⟨?_, List.pairwise_cons.2 h⟩
        intro b hb
        rcases List.mem_cons.1 hb with hy | hrest
        · exact hy ▸ hx
        · exact le_trans hx (h.1 b hrest)
      · rw [insertByDist, if_neg hx, List.pairwise_cons]
        refine ⟨?_, ih h.2⟩
        intro b hb
        rcases mem_insertByDist hb with h1 | h2
        · exact h1 ▸ le_of_not_le hx
        · exact h.1 b h2

theorem pairwise_sortByDist (l : List (Nat × Rat)) :
    List.Pairwise (fun a b => a.2 ≤ b.2) (sortByDist l) := by
  induction l with
  | nil => simp [sortByDist]
  | cons x xs ih => exact pairwise_insertByDist x (sortByDist xs) ih

theorem length_enumIdx (vs : List (List Rat)) :
    ∀ i : Nat, (enumIdx i vs).length = vs.length := by
  induction vs with
  | nil => intro i; rfl
  | cons v vs ih => intro i; simp [enumIdx, ih (i + 1)]

theorem mem_enumIdx {p : Nat × List Rat} (vs : List (List Rat)) :
    ∀ i : Nat, p ∈ enumIdx i vs → p.1 < i + vs.length := by
  induction vs with
  | nil => intro i h; cases h
  | cons v vs ih =>
      intro i h
      rcases List.mem_cons.1 h with h1 | h2
      · subst h1; simp
      · have := ih (i + 1) h2
        simp only [List.length_cons]
        omega

theorem knn_length (embs : List (List Rat)) (q : List Rat) (k : Nat) :
    (knn embs q k).length = min k embs.length := by
  unfold knn
  rw [List.length_take, length_sortByDist, List.length_map, length_enumIdx]

theorem knn_mem_lt {embs : List (List Rat)} {q : List Rat} {k : Nat}
    {p : Nat × Rat} (h : p ∈ knn embs q k) : p.1 < embs.length := by
  have h1 : p ∈ sortByDist ((enumIdx 0 embs).map (fun r => (r.1, sqdist q r.2))) :=
    List.take_subset k _ h
  have h2 := mem_sortByDist h1
  obtain ⟨x, hx, hxp⟩ := List.mem_map.1 h2
  have hb := mem_enumIdx embs 0 hx
  have : p.1 = x.1 := by rw [← hxp]
  omega

theorem knn_pairwise (embs : List (List Rat)) (q : List Rat) (k : Nat) :
    List.Pairwise (fun a b => a.2 ≤ b.2) (knn embs q k) :=
  List.Pairwise.sublist (List.take_sublist k _) (pairwise_sortByDist _)

theorem chunkAt_eq_some {texts : List String} {p : Nat × Rat} {c : String × Rat}
    (h : chunkAt texts p = some c) : c.2 = p.2 := by
  unfold chunkAt at h
  split at h
  · cases h; rfl
  · cases h

theorem length_filterMap_chunkAt (texts : List String) (L : List (Nat × Rat))
    (hall : ∀ p ∈ L, p.1 < texts.length) :
    (L.filterMap (chunkAt texts)).length = L.length := by
  induction L with
  | nil => rfl
  | cons a l ih =>
      have ha : a.1 < texts.length := hall a (List.mem_cons_self a l)
      rw [List.filterMap_cons]
      have : chunkAt texts a = some (texts.get ⟨a.1, ha⟩, a.2) := by
        unfold chunkAt
        rw [dif_pos ha]
      rw [this]
      simp only [List.length_cons]
      rw [ih (fun p hp => hall p (List.mem_cons_of_mem a hp))]

theorem pairwise_filterMap_chunkAt (texts : List String) (L : List (Nat × Rat))
    (h : List.Pairwise (fun a b => a.2 ≤ b.2) L) :
    List.Pairwise (fun a b => a.2 ≤ b.2) (L.filterMap (chunkAt texts)) := by
  induction L with
  | nil => simp
  | cons a l ih =>
      rw [List.pairwise_cons] at h
      rw [List.filterMap_cons]
      cases hc : chunkAt texts a with
      | none => exact ih h.2
      | some c =>
          rw [List.pairwise_cons]
          refine ⟨?_, ih h.2⟩
          intro d hd
          obtain ⟨x, hx, hxd⟩ := List.mem_filterMap.1 hd
          rw [chunkAt_eq_some hc, chunkAt_eq_some hxd]
          exact h.1 x hx

theorem build_ok_inv (model : String → List Rat) (files : List (String × String))
    (ri : SimpleRAGIndex)
    (hb : build_from_folder model files = Except.ok ri) :
    ri.index = some (ri.texts.map model) := by
  unfold build_from_folder at hb
  simp only [] at hb
  split at hb
  · cases hb
  · cases hb
    rfl

/-- C9: for every built Retrieval Index and every query, `retrieve` returns
at most `k` results, returns fewer than `k` only when the corpus holds
fewer than `k` chunks, orders them by non-decreasing distance, and an index
that has not been built never returns results (the call raises instead). -/
theorem C9_retrieve_bounds (model : String → List Rat)
    (files : List (String × String)) (ri : SimpleRAGIndex) (q : String) (k : Nat)
    (hb : build_from_folder model files = Except.ok ri) :
    (∀ l, retrieve ri q k = Except.ok l →
      l.length ≤ k ∧ (l.length < k → ri.texts.length < k) ∧
      List.Pairwise (fun a b => a.2 ≤ b.2) l) ∧
    ∀ r : SimpleRAGIndex, r.index = none → ∀ l, retrieve r q k ≠ Except.ok l := by
  constructor
  · intro l hl
    have hidx := build_ok_inv model files ri hb
    rw [retrieve, hidx] at hl
    have hl' : (knn (ri.texts.map model) (ri.embed q) k).filterMap (chunkAt ri.texts) = l :=
      by simpa using hl
    have hall : ∀ p ∈ knn (ri.texts.map model) (ri.embed q) k, p.1 < ri.texts.length := by
      intro p hp
      have := knn_mem_lt hp
      simpa using this
    have hlen : l.length = min k ri.texts.length := by
      rw [← hl', length_filterMap_chunkAt ri.texts _ hall, knn_length,
        List.length_map]
    refine ⟨?_, ?_, ?_⟩
    · rw [hlen]; exact Nat.min_le_left k ri.texts.length
    · intro hlt
      rw [hlen] at hlt
      rcases Nat.le_total k ri.texts.length with hle | hle
      · rw [Nat.min_eq_left hle] at hlt; omega
      · omega
    · rw [← hl']
      exact pairwise_filterMap_chunkAt ri.texts _ (knn_pairwise _ _ _)
  · intro r hr l
    rw [retrieve, hr]
    intro hcontra
    cases hcontra

/-- The embedding model of the concrete witness index. -/
def model0 : String → List Rat := fun _ => []

/-- The index `build_from_folder model0 [("a.txt", "ref")]` builds. -/
def riW : SimpleRAGIndex := ⟨model0, some [[]], ["[a.txt] ref"]⟩

/-- C9 witness: a one-chunk corpus, `k = 3`: one result, within bounds,
sorted; and the corpus is indeed smaller than `k`. -/
theorem C9_witness :
    ([("[a.txt] ref", (0 : Rat))].length ≤ 3 ∧
      ([("[a.txt] ref", (0 : Rat))].length < 3 → riW.texts.length < 3) ∧
      List.Pairwise (fun (a : String × Rat) (b : String × Rat) => a.2 ≤ b.2)
        [("[a.txt] ref", (0 : Rat))]) ∧
    ∀ l, retrieve ⟨model0, none, []⟩ "q" 3 ≠ Except.ok l := by
  constructor
  · exact (C9_retrieve_bounds model0 [("a.txt", "ref")] riW "q" 3 (by rfl)).1
      [("[a.txt] ref", (0 : Rat))] (by rfl)
  · exact (C9_retrieve_bounds model0 [("a.txt", "ref")] riW "q" 3 (by rfl)).2
      ⟨model0, none, []⟩ rfl
